import Mathlib

/-!
Shallow embedding of `src/news_monitor.py`, a polling-and-diff notifier for
investor-relations pages.  Pure pipeline stages (link extraction from parsed
anchors, fingerprinting, change detection, report building) are translated as
Lean functions; the orchestrator loop of `main` is translated as explicit
recursion over the configured company list with the page fetch modelled as an
oracle, and the persisted state file threaded as a value.  HTML parsing
(BeautifulSoup) and relative-URL resolution (`urllib.parse.urljoin`) are
abstracted: the extractor consumes the list of anchors the parser would yield,
and resolution is an explicit function parameter.
-/

namespace NewsMonitor

/-- `MAX_LINKS_PER_COMPANY = 50` from the source. -/
def MAX_LINKS_PER_COMPANY : Nat := 50

/-- `Company` dataclass: name, ticker, ir_url, include_keywords. -/
structure Company where
  name : String
  ticker : String
  ir_url : String
  include_keywords : List String
deriving DecidableEq

/-- A link record, the title/url mapping built by `fetch_links`. -/
structure LinkRecord where
  title : String
  url : String
deriving DecidableEq

/-- An anchor element as produced by the HTML parser: its visible text
(`anchor.get_text(" ", strip=True)` before whitespace collapsing) and its
`href` attribute. -/
structure Anchor where
  text : String
  href : String
deriving DecidableEq

/-- Whitespace words of a character list: maximal non-whitespace runs, with
`cur` holding the reversed run in progress. -/
def wordsAux (cur : List Char) : List Char → List (List Char)
  | [] => if cur = [] then [] else [cur.reverse]
  | c :: cs =>
    if c.isWhitespace then
      if cur = [] then wordsAux [] cs else cur.reverse :: wordsAux [] cs
    else wordsAux (c :: cur) cs

/-- Python `" ".join(s.split())`: split on whitespace runs, drop empty
pieces, rejoin with single spaces. -/
def collapseWs (s : String) : String :=
  String.intercalate " " ((wordsAux [] s.toList).map String.mk)

/-- Python `s.strip()`: trim whitespace from both ends. -/
def stripWs (s : String) : String :=
  String.mk (((s.toList.dropWhile Char.isWhitespace).reverse.dropWhile
    Char.isWhitespace).reverse)

/-- ASCII lowering of one character, as `str.lower` acts on ASCII input. -/
def lowerChar (c : Char) : Char :=
  if 65 ≤ c.toNat ∧ c.toNat ≤ 90 then Char.ofNat (c.toNat + 32) else c

/-- Python `s.lower()` (modelled on the ASCII range). -/
def lowerStr (s : String) : String :=
  String.mk (s.toList.map lowerChar)

/-- Does `needle` match `hay` position by position at its head? -/
def startsWithChars : List Char → List Char → Bool
  | [], _ => true
  | _ :: _, [] => false
  | n :: ns, h :: hs => n = h && startsWithChars ns hs

/-- Does `needle` occur contiguously somewhere in `hay`? -/
def hasSubChars (needle : List Char) : List Char → Bool
  | [] => startsWithChars needle []
  | h :: hs => startsWithChars needle (h :: hs) || hasSubChars needle hs

/-- Python `needle in hay` on strings: contiguous substring test. -/
def containsSub (hay needle : String) : Bool :=
  hasSubChars needle.toList hay.toList

/-- Keep the first occurrence of each element, dropping later duplicates;
this is the order and content of `dict.values()` for a dict comprehension
keyed by the element (values here are determined by their keys). -/
def dedupFirstAux {α : Type} [DecidableEq α] (seen : List α) : List α → List α
  | [] => []
  | x :: xs =>
    if x ∈ seen then dedupFirstAux seen xs
    else x :: dedupFirstAux (x :: seen) xs

/-- `list({item_key(x): x for x in l}.values())` when values are determined
by their keys: first-occurrence deduplication. -/
def dedupFirst {α : Type} [DecidableEq α] (l : List α) : List α :=
  dedupFirstAux [] l

/-- Strict lexicographic comparison of character lists by code point,
matching Python string comparison. -/
def lexLtB : List Char → List Char → Bool
  | _, [] => false
  | [], _ :: _ => true
  | a :: as, b :: bs =>
    if a.toNat < b.toNat then true
    else if b.toNat < a.toNat then false
    else lexLtB as bs

/-- Python `s < t` on strings. -/
def strLt (s t : String) : Prop :=
  lexLtB s.toList t.toList = true

/-- Python `s <= t` on strings: the negation of the converse strict
comparison. -/
def strLe (s t : String) : Prop :=
  lexLtB t.toList s.toList = false

/-- Python tuple comparison `(a1, a2) <= (b1, b2)` on strings. -/
def lexLe (a b : String × String) : Prop :=
  strLt a.1 b.1 ∨ (a.1 = b.1 ∧ strLe a.2 b.2)

instance : DecidableRel lexLe := fun a b => by
  unfold lexLe strLt strLe
  infer_instance

/-- Comparison of a list with itself is never strict. -/
def lexLtB_irrefl : ∀ l : List Char, lexLtB l l = false
  | [] => rfl
  | c :: cs => by simp [lexLtB, lexLtB_irrefl cs]

/-- Strict list comparison is trichotomous. -/
def lexLtB_trich : ∀ a b : List Char,
    lexLtB a b = true ∨ a = b ∨ lexLtB b a = true
  | [], [] => Or.inr (Or.inl rfl)
  | [], _ :: _ => Or.inl rfl
  | _ :: _, [] => Or.inr (Or.inr rfl)
  | a :: as, b :: bs => by
    rcases Nat.lt_trichotomy a.toNat b.toNat with h | h | h
    · exact Or.inl (by simp [lexLtB, h])
    · have hab : a = b := by
        have := congrArg Char.ofNat h
        rwa [Char.ofNat_toNat, Char.ofNat_toNat] at this
      subst hab
      rcases lexLtB_trich as bs with ht | ht | ht
      · exact Or.inl (by simp [lexLtB, ht])
      · exact Or.inr (Or.inl (by rw [ht]))
      · exact Or.inr (Or.inr (by simp [lexLtB, ht]))
    · exact Or.inr (Or.inr (by simp [lexLtB, h]))

/-- Strict list comparison is transitive. -/
def lexLtB_trans : ∀ a b c : List Char,
    lexLtB a b = true → lexLtB b c = true → lexLtB a c = true
  | _, _, [], _, h2 => by simp [lexLtB] at h2
  | _, [], _ :: _, h1, _ => by simp [lexLtB] at h1
  | [], _ :: _, _ :: _, _, _ => rfl
  | a :: as, b :: bs, c :: cs, h1, h2 => by
    by_cases gab : a.toNat < b.toNat
    · by_cases gbc : b.toNat < c.toNat
      · have gac : a.toNat < c.toNat := Nat.lt_trans gab gbc
        simp [lexLtB, gac]
      · by_cases gcb : c.toNat < b.toNat
        · simp [lexLtB, gbc, gcb] at h2
        · have gac : a.toNat < c.toNat := by omega
          simp [lexLtB, gac]
    · by_cases gba : b.toNat < a.toNat
      · simp [lexLtB, gab, gba] at h1
      · by_cases gbc : b.toNat < c.toNat
        · have gac : a.toNat < c.toNat := by omega
          simp [lexLtB, gac]
        · by_cases gcb : c.toNat < b.toNat
          · simp [lexLtB, gbc, gcb] at h2
          · have hac : ¬ a.toNat < c.toNat := by omega
            have hca : ¬ c.toNat < a.toNat := by omega
            simp only [lexLtB, gab, gba, if_false] at h1
            simp only [lexLtB, gbc, gcb, if_false] at h2
            simp only [lexLtB, hac, hca, if_false]
            exact lexLtB_trans as bs cs h1 h2

/-- Strict comparison in one direction refutes it in the other. -/
def lexLtB_asymm (a b : List Char) (h : lexLtB a b = true) :
    lexLtB b a = false := by
  cases hba : lexLtB b a with
  | false => rfl
  | true =>
    have h2 := lexLtB_trans a b a h hba
    rw [lexLtB_irrefl a] at h2
    exact absurd h2 Bool.false_ne_true

/-- Non-strictness composes: if `x` is not below `y` and `y` is not below
`z`, then `x` is not below `z`, read in the converse direction. -/
def lexLtB_le_trans (x y z : List Char) (h1 : lexLtB y x = false)
    (h2 : lexLtB z y = false) : lexLtB z x = false := by
  cases h : lexLtB z x with
  | false => rfl
  | true =>
    rcases lexLtB_trich x y with ht | ht | ht
    · rw [lexLtB_trans z x y h ht] at h2; exact h2
    · subst ht; rw [h] at h2; exact h2
    · rw [ht] at h1; exact h1

/-- Python tuple comparison is total. -/
def lexLe_total_pf (a b : String × String) : lexLe a b ∨ lexLe b a := by
  rcases lexLtB_trich a.1.toList b.1.toList with h | h | h
  · exact Or.inl (Or.inl h)
  · have he : a.1 = b.1 := by
      cases hfst : a.1
      cases hsnd : b.1
      rw [hfst, hsnd] at h
      exact congrArg String.mk h
    cases hlt : lexLtB b.2.toList a.2.toList with
    | false => exact Or.inl (Or.inr ⟨he, hlt⟩)
    | true => exact Or.inr (Or.inr ⟨he.symm, lexLtB_asymm _ _ hlt⟩)
  · exact Or.inr (Or.inl h)

/-- Python tuple comparison is transitive. -/
def lexLe_trans_pf (a b c : String × String) (h1 : lexLe a b)
    (h2 : lexLe b c) : lexLe a c := by
  rcases h1 with h1 | ⟨h1e, h1r⟩
  · rcases h2 with h2 | ⟨h2e, _⟩
    · exact Or.inl (lexLtB_trans _ _ _ h1 h2)
    · exact Or.inl (h2e ▸ h1)
  · rcases h2 with h2 | ⟨h2e, h2r⟩
    · exact Or.inl (h1e ▸ h2)
    · exact Or.inr ⟨h1e.trans h2e, lexLtB_le_trans _ _ _ h1r h2r⟩

/-- The sort key of `fetch_links` and `build_change_report`:
`(x.lower(), y.lower())` of the title and url. -/
def linkKey (r : LinkRecord) : String × String :=
  (lowerStr r.title, lowerStr r.url)

/-- Ordering of link records used by `normalized.sort(key=...)`. -/
def linkLe (a b : LinkRecord) : Prop :=
  lexLe (linkKey a) (linkKey b)

instance : DecidableRel linkLe := fun a b => by
  unfold linkLe
  infer_instance

instance : IsTotal LinkRecord linkLe :=
  ⟨fun a b => lexLe_total_pf (linkKey a) (linkKey b)⟩

instance : IsTrans LinkRecord linkLe :=
  ⟨fun a b c => lexLe_trans_pf (linkKey a) (linkKey b) (linkKey c)⟩

/-- Ordering of raw `(title, url)` pairs used by `sorted(..., key=...)` in
`build_change_report`. -/
def pairLe (a b : String × String) : Prop :=
  lexLe (lowerStr a.1, lowerStr a.2) (lowerStr b.1, lowerStr b.2)

instance : DecidableRel pairLe := fun a b => by
  unfold pairLe
  infer_instance

instance : IsTotal (String × String) pairLe :=
  ⟨fun a b => lexLe_total_pf (lowerStr a.1, lowerStr a.2) (lowerStr b.1, lowerStr b.2)⟩

instance : IsTrans (String × String) pairLe :=
  ⟨fun a b c => lexLe_trans_pf (lowerStr a.1, lowerStr a.2)
    (lowerStr b.1, lowerStr b.2) (lowerStr c.1, lowerStr c.2)⟩

/-- The record built from one kept anchor: title is the collapsed text, or
the absolute URL when the text is empty; url is the absolute URL. -/
def mkRecord (resolve : String → String → String) (base : String) (a : Anchor) :
    LinkRecord :=
  let text := collapseWs a.text
  let absolute := resolve base (stripWs a.href)
  ⟨if text = "" then absolute else text, absolute⟩

/-- The anchor loop of `fetch_links`: skip anchors whose stripped href is
empty; when keywords are configured, keep an anchor only if some keyword is a
substring of the lowercased text or of the lowercased absolute URL.
`resolve` abstracts `urljoin`. -/
def collectLinks (resolve : String → String → String) (base : String)
    (kws : List String) : List Anchor → List LinkRecord
  | [] => []
  | a :: rest =>
    let text := collapseWs a.text
    let href := stripWs a.href
    if href = "" then collectLinks resolve base kws rest
    else
      let absolute := resolve base href
      if kws ≠ [] ∧ ¬ (∃ k ∈ kws, containsSub (lowerStr text) k = true ∨
          containsSub (lowerStr absolute) k = true) then
        collectLinks resolve base kws rest
      else
        mkRecord resolve base a :: collectLinks resolve base kws rest

/-- The deduplicated, sorted candidate list of `fetch_links`, before the cap. -/
def sortedLinks (resolve : String → String → String) (c : Company)
    (anchors : List Anchor) : List LinkRecord :=
  List.insertionSort linkLe (dedupFirst (collectLinks resolve c.ir_url c.include_keywords anchors))

/-- `fetch_links` after the HTTP response has been parsed into anchors:
collect, dedupe by (title, url), sort by lowercased key, cap at 50. -/
def fetch_links (resolve : String → String → String) (c : Company)
    (anchors : List Anchor) : List LinkRecord :=
  (sortedLinks resolve c anchors).take MAX_LINKS_PER_COMPANY

/-- The `(title, url)` identity of a record. -/
def pairOf (r : LinkRecord) : String × String :=
  (r.title, r.url)

/-- `build_change_report`: set difference of (title, url) pairs in both
directions, each result sorted by lowercased key and rebuilt into records.
Python sets are modelled as first-occurrence-deduplicated lists. -/
def build_change_report (previous current : List LinkRecord) :
    List LinkRecord × List LinkRecord :=
  let previousSet := dedupFirst (previous.map pairOf)
  let currentSet := dedupFirst (current.map pairOf)
  let added := (List.insertionSort pairLe
    (currentSet.filter (fun p => ¬ p ∈ previousSet))).map (fun p => ⟨p.1, p.2⟩)
  let removed := (List.insertionSort pairLe
    (previousSet.filter (fun p => ¬ p ∈ currentSet))).map (fun p => ⟨p.1, p.2⟩)
  (added, removed)

/-- Truncate to a 32-bit word. -/
def w32 (n : Nat) : Nat :=
  n % 4294967296

/-- Right rotation of a 32-bit word. -/
def rotr (n x : Nat) : Nat :=
  (x >>> n) ||| w32 (x <<< (32 - n))

/-- SHA-256 Ch function. -/
def shaCh (e f g : Nat) : Nat :=
  (e &&& f) ^^^ ((e ^^^ 4294967295) &&& g)

/-- SHA-256 Maj function. -/
def shaMaj (a b c : Nat) : Nat :=
  (a &&& b) ^^^ (a &&& c) ^^^ (b &&& c)

/-- SHA-256 big sigma 0. -/
def bigSig0 (x : Nat) : Nat :=
  rotr 2 x ^^^ rotr 13 x ^^^ rotr 22 x

/-- SHA-256 big sigma 1. -/
def bigSig1 (x : Nat) : Nat :=
  rotr 6 x ^^^ rotr 11 x ^^^ rotr 25 x

/-- SHA-256 small sigma 0. -/
def smallSig0 (x : Nat) : Nat :=
  rotr 7 x ^^^ rotr 18 x ^^^ (x >>> 3)

/-- SHA-256 small sigma 1. -/
def smallSig1 (x : Nat) : Nat :=
  rotr 17 x ^^^ rotr 19 x ^^^ (x >>> 10)

/-- SHA-256 round constants, in decimal. -/
def shaK : List Nat :=
  [1116352408, 1899447441, 3049323471, 3921009573, 961987163,
   1508970993, 2453635748, 2870763221, 3624381080, 310598401,
   607225278, 1426881987, 1925078388, 2162078206, 2614888103,
   3248222580, 3835390401, 4022224774, 264347078, 604807628,
   770255983, 1249150122, 1555081692, 1996064986, 2554220882,
   2821834349, 2952996808, 3210313671, 3336571891, 3584528711,
   113926993, 338241895, 666307205, 773529912, 1294757372,
   1396182291, 1695183700, 1986661051, 2177026350, 2456956037,
   2730485921, 2820302411, 3259730800, 3345764771, 3516065817,
   3600352804, 4094571909, 275423344, 430227734, 506948616,
   659060556, 883997877, 958139571, 1322822218, 1537002063,
   1747873779, 1955562222, 2024104815, 2227730452, 2361852424,
   2428436474, 2756734187, 3204031479, 3329325298]

/-- SHA-256 working state: eight 32-bit words. -/
structure Hash8 where
  a : Nat
  b : Nat
  c : Nat
  d : Nat
  e : Nat
  f : Nat
  g : Nat
  h : Nat
deriving DecidableEq

/-- SHA-256 initial hash value, in decimal. -/
def shaH0 : Hash8 :=
  ⟨1779033703, 3144134277, 1013904242, 2773480762,
   1359893119, 2600822924, 528734635, 1541459225⟩

/-- One SHA-256 compression round for a word of the schedule and its
round constant. -/
def compressStep (st : Hash8) (wk : Nat × Nat) : Hash8 :=
  let t1 := w32 (st.h + bigSig1 st.e + shaCh st.e st.f st.g + wk.2 + wk.1)
  let t2 := w32 (bigSig0 st.a + shaMaj st.a st.b st.c)
  ⟨w32 (t1 + t2), st.a, st.b, st.c, w32 (st.d + t1), st.e, st.f, st.g⟩

/-- Group big-endian bytes into 32-bit words. -/
def bytesToWords : List Nat → List Nat
  | b0 :: b1 :: b2 :: b3 :: rest =>
    (((b0 * 256 + b1) * 256 + b2) * 256 + b3) :: bytesToWords rest
  | _ => []

/-- Extend the 16-word block to the 64-word message schedule, appending
`fuel` further words. -/
def extendSchedule : Nat → List Nat → List Nat
  | 0, w => w
  | n + 1, w =>
    let len := w.length
    let next := w32 (smallSig1 (w.getD (len - 2) 0) + w.getD (len - 7) 0 +
      smallSig0 (w.getD (len - 15) 0) + w.getD (len - 16) 0)
    extendSchedule n (w ++ [next])

/-- Process one 64-byte chunk, updating the hash value. -/
def processChunk (st : Hash8) (chunk : List Nat) : Hash8 :=
  let w := extendSchedule 48 (bytesToWords chunk)
  let r := (w.zip shaK).foldl compressStep st
  ⟨w32 (st.a + r.a), w32 (st.b + r.b), w32 (st.c + r.c), w32 (st.d + r.d),
   w32 (st.e + r.e), w32 (st.f + r.f), w32 (st.g + r.g), w32 (st.h + r.h)⟩

/-- Split a byte list into 64-byte chunks, with structural fuel bounding the
number of chunks (the byte count always suffices). -/
def chunks64Fuel : Nat → List Nat → List (List Nat)
  | 0, _ => []
  | _, [] => []
  | fuel + 1, x :: xs => ((x :: xs).take 64) :: chunks64Fuel fuel ((x :: xs).drop 64)

/-- Split a byte list into 64-byte chunks. -/
def chunks64 (l : List Nat) : List (List Nat) :=
  chunks64Fuel l.length l

/-- SHA-256 padding: append 0x80, zero bytes to 56 mod 64, then the 64-bit
big-endian bit length. -/
def shaPad (msg : List Nat) : List Nat :=
  let len := msg.length
  let zeros := (64 + 56 - ((len + 1) % 64)) % 64
  let bits := len * 8
  msg ++ [128] ++ List.replicate zeros 0 ++
    ((List.range 8).map (fun i => (bits >>> (8 * (7 - i))) % 256))

/-- Lowercase hex digit. -/
def hexDigit (n : Nat) : Char :=
  if n < 10 then Char.ofNat (48 + n) else Char.ofNat (87 + n % 16)

/-- Lowercase hex rendering of the low `d` nibbles of a word. -/
def hexNibbles (d w : Nat) : String :=
  String.mk ((List.range d).map (fun i => hexDigit ((w >>> (4 * (d - 1 - i))) % 16)))

/-- `hashlib.sha256(bytes).hexdigest()`: the 64-character lowercase hex
digest of a byte sequence. -/
def sha256Hex (msg : List Nat) : String :=
  let st := (chunks64 (shaPad msg)).foldl processChunk shaH0
  hexNibbles 8 st.a ++ hexNibbles 8 st.b ++ hexNibbles 8 st.c ++ hexNibbles 8 st.d ++
    hexNibbles 8 st.e ++ hexNibbles 8 st.f ++ hexNibbles 8 st.g ++ hexNibbles 8 st.h

/-- UTF-8 encoding of one character. -/
def utf8Bytes (c : Char) : List Nat :=
  let n := c.toNat
  if n < 128 then [n]
  else if n < 2048 then [192 ||| (n >>> 6), 128 ||| (n &&& 63)]
  else if n < 65536 then
    [224 ||| (n >>> 12), 128 ||| ((n >>> 6) &&& 63), 128 ||| (n &&& 63)]
  else
    [240 ||| (n >>> 18), 128 ||| ((n >>> 12) &&& 63),
     128 ||| ((n >>> 6) &&& 63), 128 ||| (n &&& 63)]

/-- `s.encode("utf-8")` as a byte list. -/
def utf8Encode (s : String) : List Nat :=
  s.toList.flatMap utf8Bytes

/-- JSON escaping of one character as `json.dumps` does with its default
`ensure_ascii=True`: printable ASCII except quote and backslash is kept,
everything else escaped. -/
def jsonEscapeChar (c : Char) : String :=
  if c = '\"' then "\\\""
  else if c = '\\' then "\\\\"
  else if c = '\n' then "\\n"
  else if c = '\r' then "\\r"
  else if c = '\t' then "\\t"
  else if c.toNat = 8 then "\\b"
  else if c.toNat = 12 then "\\f"
  else if c.toNat < 32 ∨ c.toNat > 126 then
    if c.toNat < 65536 then "\\u" ++ hexNibbles 4 c.toNat
    else
      let v := c.toNat - 65536
      "\\u" ++ hexNibbles 4 (55296 + (v >>> 10)) ++
        "\\u" ++ hexNibbles 4 (56320 + (v % 1024))
  else String.singleton c

/-- JSON string literal for `s`. -/
def jsonString (s : String) : String :=
  "\"" ++ String.join (s.toList.map jsonEscapeChar) ++ "\""

/-- JSON object for one link record with sorted keys and no incidental
whitespace, as `json.dumps` with sort_keys and compact separators renders
the title/url mapping. -/
def jsonLink (r : LinkRecord) : String :=
  "\x7b\"title\":" ++ jsonString r.title ++ ",\"url\":" ++ jsonString r.url ++ "\x7d"

/-- JSON array for a link list with compact separators. -/
def jsonLinks (l : List LinkRecord) : String :=
  "[" ++ String.intercalate "," (l.map jsonLink) ++ "]"

/-- `digest_links`: the SHA-256 hex digest of the canonical compact JSON
serialization of the link list. -/
def digest_links (links : List LinkRecord) : String :=
  sha256Hex (utf8Encode (jsonLinks links))

/-- A per-company change record appended by the orchestrator loop. -/
structure ChangeRecord where
  name : String
  ticker : String
  ir_url : String
  added : List LinkRecord
  removed : List LinkRecord
deriving DecidableEq

/-- The notification message: Subject, From, To and plain-text body. -/
structure EmailMessage where
  subject : String
  sender : String
  recipient : String
  body : String
deriving DecidableEq

/-- `required_env`: look a name up in the environment, failing on an unset or
empty value (Python `if not value`). -/
def required_env (env : String → Option String) (name : String) :
    Except String String :=
  match env name with
  | some v =>
    if v = "" then Except.error ("Missing required environment variable: " ++ name)
    else Except.ok v
  | none => Except.error ("Missing required environment variable: " ++ name)

/-- The subject line of `build_email`: the format string interpolates the
change count followed by the literal text company and a conditional suffix,
namely `"ies"` when the count differs from one and `""` otherwise. -/
def emailSubject (changes : List ChangeRecord) : String :=
  "Portfolio IR updates (" ++ toString changes.length ++ " company" ++
    (if changes.length ≠ 1 then "ies" else "") ++ ")"

/-- The body lines contributed by one change record. -/
def changeLines (change : ChangeRecord) : List String :=
  [change.name ++ " (" ++ change.ticker ++ ")",
   "Investor page: " ++ change.ir_url] ++
  (if change.added ≠ [] then
    "  New links:" ::
      change.added.map (fun item => "    + " ++ item.title ++ " -> " ++ item.url)
  else []) ++
  (if change.removed ≠ [] then
    "  Removed links:" ::
      change.removed.map (fun item => "    - " ++ item.title ++ " -> " ++ item.url)
  else []) ++
  [""]

/-- The plain-text body of `build_email` for a given formatted UTC time. -/
def emailBody (now : String) (changes : List ChangeRecord) : String :=
  stripWs (String.intercalate "\n"
    (("Portfolio news monitor detected updates at " ++ now ++ ".") :: "" ::
      changes.flatMap changeLines)) ++ "\n"

/-- `build_email`: build the message; the sender comes from the required
`GMAIL_USERNAME` secret and the recipient defaults to the sender unless
`NOTIFY_TO` is set. -/
def build_email (env : String → Option String) (now : String)
    (changes : List ChangeRecord) : Except String EmailMessage :=
  match required_env env "GMAIL_USERNAME" with
  | Except.error e => Except.error e
  | Except.ok sender =>
    Except.ok ⟨emailSubject changes, sender, (env "NOTIFY_TO").getD sender,
      emailBody now changes⟩

/-- `send_email`: validate both required secrets; the SMTP transport itself
is abstracted as succeeding once the credentials are present. -/
def send_email (env : String → Option String) (_msg : EmailMessage) :
    Except String Unit :=
  match required_env env "GMAIL_USERNAME" with
  | Except.error e => Except.error e
  | Except.ok _ =>
    match required_env env "GMAIL_APP_PASSWORD" with
    | Except.error e => Except.error e
    | Except.ok _ => Except.ok ()

/-- One persisted company snapshot, as written into the state file. -/
structure Snapshot where
  name : String
  ir_url : String
  digest : String
  links : List LinkRecord
  checked_at : String
deriving DecidableEq

/-- The persisted state artifact: ticker-to-snapshot mapping (as an
insertion-ordered association list, modelling the JSON object) and the
`updated_at` timestamp. -/
structure StateFile where
  companies : List (String × Snapshot)
  updated_at : String
deriving DecidableEq

/-- The command-line flags relevant to the run. -/
structure Args where
  notify_on_first_run : Bool
  dry_run : Bool
deriving DecidableEq

/-- The outcome of fetching and extracting one company page: the extracted
links, or a transport failure / non-success HTTP status
(`requests.RequestException`, including `raise_for_status`). -/
inductive FetchOutcome where
  | ok (links : List LinkRecord)
  | netFail
deriving DecidableEq

/-- Lookup of a ticker in the prior snapshot mapping. -/
def lookupSnap (companies : List (String × Snapshot)) (ticker : String) :
    Option Snapshot :=
  match companies with
  | [] => none
  | (t, s) :: rest => if t = ticker then some s else lookupSnap rest ticker

/-- `previous.get("links", []) if previous else []`. -/
def prevLinks (prior : List (String × Snapshot)) (ticker : String) :
    List LinkRecord :=
  match lookupSnap prior ticker with
  | some s => s.links
  | none => []

/-- The body of the per-company loop in `main` (lines 203-232): fingerprint
the fetched links, build the fresh snapshot unconditionally, and append a
change record when the digest changed or on a notified first run. -/
def processCompany (prior : List (String × Snapshot)) (notifyFirst : Bool)
    (now : String) (c : Company) (links : List LinkRecord) :
    Snapshot × Option ChangeRecord :=
  let digest := digest_links links
  let previous := lookupSnap prior c.ticker
  let snap : Snapshot := ⟨c.name, c.ir_url, digest, links, now⟩
  let is_first_run := previous.isNone
  let changed := match previous with
    | some s => s.digest != digest
    | none => false
  if changed || (is_first_run && notifyFirst) then
    let rep := build_change_report (prevLinks prior c.ticker) links
    (snap, some ⟨c.name, c.ticker, c.ir_url, rep.1, rep.2⟩)
  else (snap, none)

/-- The per-company loop of `main` over the configured companies, with the
page fetch as an oracle: a fetch failure raises and aborts the remaining
companies; otherwise the snapshot mapping and change list are accumulated in
configuration order. -/
def runLoop (prior : List (String × Snapshot)) (notifyFirst : Bool)
    (now : String) (fetch : Company → FetchOutcome) :
    List Company → Except Unit (List (String × Snapshot) × List ChangeRecord)
  | [] => Except.ok ([], [])
  | c :: rest =>
    match fetch c with
    | FetchOutcome.netFail => Except.error ()
    | FetchOutcome.ok links =>
      let step := processCompany prior notifyFirst now c links
      match runLoop prior notifyFirst now fetch rest with
      | Except.error e => Except.error e
      | Except.ok (snaps, chgs) =>
        Except.ok ((c.ticker, step.1) :: snaps, step.2.toList ++ chgs)

/-- `main` after configuration loading, together with the exit-code mapping
of the `__main__` guard: returns the process exit code and the state file
content after the run.  A network failure propagates uncaught, so the state
file keeps its prior content and the exit code is 2; otherwise the rebuilt
state is written before any reporting, and credential errors exit 1. -/
def mainRun (env : String → Option String) (now : String)
    (fetch : Company → FetchOutcome) (args : Args)
    (priorFile : Option StateFile) (companies : List Company) :
    Nat × Option StateFile :=
  let prior := match priorFile with
    | some st => st.companies
    | none => []
  match runLoop prior args.notify_on_first_run now fetch companies with
  | Except.error _ => (2, priorFile)
  | Except.ok (snaps, changes) =>
    let written := some (StateFile.mk snaps now)
    if changes = [] then (0, written)
    else
      match build_email env now changes with
      | Except.error _ => (1, written)
      | Except.ok msg =>
        if args.dry_run then (0, written)
        else
          match send_email env msg with
          | Except.error _ => (1, written)
          | Except.ok _ => (0, written)

/-- Resolver used by concrete witnesses: returns the reference unchanged. -/
def resolve0 : String → String → String :=
  fun _ href => href

/-- A company with no keyword filter, used by concrete witnesses. -/
def company0 : Company :=
  ⟨"n", "T", "base", []⟩

/-- Fifty-one anchors with pairwise distinct titles and urls. -/
def anchors51 : List Anchor :=
  (List.range 51).map (fun i => ⟨"t" ++ toString i, "u" ++ toString i⟩)

/-- A change record used by concrete report-builder inputs. -/
def sampleChange (t : String) : ChangeRecord :=
  ⟨t, t, t, [], []⟩

/-- A company used by concrete orchestrator inputs. -/
def failCompany : Company :=
  ⟨"n", "T", "u", []⟩

/-! ### Helper lemmas -/

/-- Validation of the hash embedding against the standard SHA-256 test
vector for the three-byte message abc. -/
theorem sha256_test_vector :
    sha256Hex (utf8Encode "abc") =
      "ba7816bf8f01cfea414140de5dae2223b00361a396177a9cb410ff61f20015ad" := by
  decide

/-- Filtering a pair list by non-membership in itself yields the empty
list. -/
theorem filter_not_mem_self (S : List (String × String)) :
    List.filter (fun p => decide (p ∉ S)) S = [] := by
  rw [List.filter_eq_nil_iff]
  intro a ha
  simp [ha]

/-- First-occurrence deduplication yields a duplicate-free list avoiding the
seen accumulator. -/
theorem nodup_dedupFirstAux {α : Type} [DecidableEq α] (l : List α) :
    ∀ seen : List α,
      (dedupFirstAux seen l).Nodup ∧ ∀ x ∈ dedupFirstAux seen l, ¬ x ∈ seen := by
  induction l with
  | nil => intro seen; simp [dedupFirstAux]
  | cons x xs ih =>
    intro seen
    by_cases hx : x ∈ seen
    · simpa [dedupFirstAux, hx] using ih seen
    · simp only [dedupFirstAux, hx, if_false]
      obtain ⟨hn, hs⟩ := ih (x :: seen)
      refine ⟨List.nodup_cons.mpr ⟨fun hmem => (hs x hmem) (List.mem_cons_self x _), hn⟩, ?_⟩
      intro y hy
      rcases List.mem_cons.mp hy with rfl | hy2
      · exact hx
      · exact fun hsy => (hs y hy2) (List.mem_cons_of_mem _ hsy)

/-- `dedupFirst` produces a duplicate-free list. -/
theorem nodup_dedupFirst {α : Type} [DecidableEq α] (l : List α) :
    (dedupFirst l).Nodup :=
  (nodup_dedupFirstAux l []).1

/-- The `(title, url)` identity is injective on link records. -/
theorem pairOf_injective : Function.Injective pairOf := by
  intro r s h
  cases r
  cases s
  simpa [pairOf] using h

/-- Pairs listed among the added records of `build_change_report` are current
pairs outside the previous pair set. -/
theorem mem_added_pairs {previous current : List LinkRecord} {p : String × String}
    (h : p ∈ (build_change_report previous current).1.map pairOf) :
    p ∈ dedupFirst (current.map pairOf) ∧ ¬ p ∈ dedupFirst (previous.map pairOf) := by
  simp only [build_change_report, List.map_map, List.mem_map] at h
  obtain ⟨q, hq, rfl⟩ := h
  rw [List.mem_insertionSort] at hq
  have := List.mem_filter.mp hq
  simp only [decide_not, Bool.not_eq_true', decide_eq_false_iff_not] at this
  simpa [pairOf] using this

/-- Pairs listed among the removed records of `build_change_report` are
previous pairs outside the current pair set. -/
theorem mem_removed_pairs {previous current : List LinkRecord} {p : String × String}
    (h : p ∈ (build_change_report previous current).2.map pairOf) :
    p ∈ dedupFirst (previous.map pairOf) ∧ ¬ p ∈ dedupFirst (current.map pairOf) := by
  simp only [build_change_report, List.map_map, List.mem_map] at h
  obtain ⟨q, hq, rfl⟩ := h
  rw [List.mem_insertionSort] at hq
  have := List.mem_filter.mp hq
  simp only [decide_not, Bool.not_eq_true', decide_eq_false_iff_not] at this
  simpa [pairOf] using this

/-! ### The claims -/

/-- C6: the Change Detector is symmetric-inverse: the added list of
`build_change_report A B` coincides with the removed list of
`build_change_report B A`, and vice versa. -/
theorem detect_symmetric_inverse (A B : List LinkRecord) :
    (build_change_report A B).1 = (build_change_report B A).2 ∧
    (build_change_report A B).2 = (build_change_report B A).1 :=
  ⟨rfl, rfl⟩

/-- C7: diffing a link list against itself yields empty added and removed
lists. -/
theorem detect_self (A : List LinkRecord) :
    build_change_report A A = ([], []) := by
  simp only [build_change_report]
  rw [filter_not_mem_self]
  rfl

/-- C8: the Fingerprinter is deterministic: equal link lists (same records in
the same order) receive the identical digest string. -/
theorem digest_deterministic (l1 l2 : List LinkRecord) (h : l1 = l2) :
    digest_links l1 = digest_links l2 := by
  rw [h]

/-- Concrete instance of the digest determinism theorem. -/
theorem digest_deterministic_witness :
    digest_links [⟨"a", "b"⟩] = digest_links [⟨"a", "b"⟩] :=
  digest_deterministic [⟨"a", "b"⟩] [⟨"a", "b"⟩] rfl

/-- C10: no `(title, url)` pair appears in both the added and the removed
list of the same `build_change_report` call. -/
theorem detect_disjoint (A B : List LinkRecord) (p : String × String)
    (h : p ∈ (build_change_report A B).1.map pairOf) :
    ¬ p ∈ (build_change_report A B).2.map pairOf := by
  intro h2
  exact (mem_added_pairs h).2 (mem_removed_pairs h2).1

/-- Concrete instance of the added/removed disjointness theorem. -/
theorem detect_disjoint_witness :
    ¬ ("a", "b") ∈ (build_change_report [] [⟨"a", "b"⟩]).2.map pairOf :=
  detect_disjoint [] [⟨"a", "b"⟩] ("a", "b") (by decide)

/-- C9: the subject line uses the singular noun for exactly one changed
company, but renders the misspelled plural "companyies" otherwise, so the
plural noun form is incorrect. -/
theorem subject_plural_bug :
    emailSubject [sampleChange "A"] = "Portfolio IR updates (1 company)" ∧
    emailSubject [sampleChange "A", sampleChange "B"] =
      "Portfolio IR updates (2 companyies)" :=
  ⟨rfl, rfl⟩

/-- C5: the extractor output contains no two records with the same
(title, url) pair. -/
theorem extractor_nodup (resolve : String → String → String) (c : Company)
    (anchors : List Anchor) :
    ((fetch_links resolve c anchors).map pairOf).Nodup := by
  have h1 : (dedupFirst (collectLinks resolve c.ir_url c.include_keywords anchors)).Nodup :=
    nodup_dedupFirst _
  have h2 : (sortedLinks resolve c anchors).Nodup :=
    ((List.perm_insertionSort linkLe _).nodup_iff).mpr h1
  have h3 : (fetch_links resolve c anchors).Nodup :=
    List.Nodup.sublist (List.take_sublist _ _) h2
  exact List.Nodup.map pairOf_injective h3

/-- C3: the extractor output has at most 50 records; it is the sorted,
deduplicated candidate list truncated strictly after sorting, its length is
exactly 50 whenever more than 50 distinct candidates exist, and every kept
record is at most every dropped record in the lexicographic key order. -/
theorem extractor_cap (resolve : String → String → String) (c : Company)
    (anchors : List Anchor) :
    (fetch_links resolve c anchors).length ≤ 50 ∧
    fetch_links resolve c anchors = (sortedLinks resolve c anchors).take 50 ∧
    (50 < (sortedLinks resolve c anchors).length →
      (fetch_links resolve c anchors).length = 50) ∧
    ∀ x ∈ fetch_links resolve c anchors,
      ∀ y ∈ (sortedLinks resolve c anchors).drop 50, linkLe x y := by
  refine ⟨?_, rfl, ?_, ?_⟩
  · show ((sortedLinks resolve c anchors).take 50).length ≤ 50
    rw [List.length_take]
    exact min_le_left _ _
  · intro hlen
    show ((sortedLinks resolve c anchors).take 50).length = 50
    rw [List.length_take]
    exact min_eq_left (le_of_lt hlen)
  · have hs : List.Sorted linkLe (sortedLinks resolve c anchors) :=
      List.sorted_insertionSort linkLe _
    have hp : List.Pairwise linkLe
        ((sortedLinks resolve c anchors).take 50 ++ (sortedLinks resolve c anchors).drop 50) := by
      rw [List.take_append_drop]
      exact hs
    intro x hx y hy
    exact (List.pairwise_append.mp hp).2.2 x hx y hy

/-- Concrete instance of the extractor cap theorem: with 51 distinct
candidate anchors, 51 candidates survive dedup, exactly 50 are kept, and
the kept record t0 precedes the dropped record t9 in key order. -/
theorem extractor_cap_witness :
    (fetch_links resolve0 company0 anchors51).length = 50 ∧
    linkLe ⟨"t0", "u0"⟩ ⟨"t9", "u9"⟩ :=
  ⟨(extractor_cap resolve0 company0 anchors51).2.2.1 (by decide),
   (extractor_cap resolve0 company0 anchors51).2.2.2 ⟨"t0", "u0"⟩ (by decide)
     ⟨"t9", "u9"⟩ (by decide)⟩

/-- C4: for an anchor whose stripped reference is non-empty, the collection
loop is compositional, keeps the anchor unconditionally when no keywords are
configured, and otherwise keeps it exactly when some keyword occurs in the
lowercased collapsed text or in the lowercased absolute URL. -/
theorem keyword_filter (resolve : String → String → String) (base : String)
    (kws : List String) (a : Anchor) (h : stripWs a.href ≠ "") :
    (∀ rest, collectLinks resolve base kws (a :: rest) =
      collectLinks resolve base kws [a] ++ collectLinks resolve base kws rest) ∧
    (kws = [] → collectLinks resolve base kws [a] = [mkRecord resolve base a]) ∧
    (kws ≠ [] →
      ((∃ k ∈ kws, containsSub (lowerStr (collapseWs a.text)) k = true ∨
          containsSub (lowerStr (resolve base (stripWs a.href))) k = true) →
        collectLinks resolve base kws [a] = [mkRecord resolve base a]) ∧
      (¬ (∃ k ∈ kws, containsSub (lowerStr (collapseWs a.text)) k = true ∨
          containsSub (lowerStr (resolve base (stripWs a.href))) k = true) →
        collectLinks resolve base kws [a] = [])) := by
  refine ⟨?_, ?_, ?_⟩
  · intro rest
    simp [collectLinks, h]
    split_ifs <;> simp
  · intro hke
    subst hke
    simp [collectLinks, h]
  · intro hkne
    constructor
    · intro hmatch
      simp [collectLinks, h, hmatch]
    · intro hnot
      simp [collectLinks, h, hkne, hnot]

/-- Concrete instance of the keyword filter theorem: the keyword div keeps
an anchor whose text contains Dividend. -/
theorem keyword_filter_witness :
    collectLinks resolve0 "b" ["div"] [⟨"Dividend", "u"⟩] =
      [mkRecord resolve0 "b" ⟨"Dividend", "u"⟩] :=
  ((keyword_filter resolve0 "b" ["div"] ⟨"Dividend", "u"⟩ (by decide)).2.2
    (by decide)).1 (by decide)

/-- C1: the loop body appends a change record exactly when a prior snapshot
exists with a differing digest, or no prior snapshot exists and the
notify-on-first-run flag is set; any appended record carries the Change
Detector diff of the prior links (empty on first run) against the current
links. -/
theorem change_append_iff (prior : List (String × Snapshot)) (nf : Bool)
    (now : String) (c : Company) (links : List LinkRecord) :
    ((processCompany prior nf now c links).2 ≠ none ↔
      ((∃ s, lookupSnap prior c.ticker = some s ∧ s.digest ≠ digest_links links) ∨
        (lookupSnap prior c.ticker = none ∧ nf = true))) ∧
    ((processCompany prior nf now c links).2 = none ∨
      (processCompany prior nf now c links).2 =
        some ⟨c.name, c.ticker, c.ir_url,
          (build_change_report (prevLinks prior c.ticker) links).1,
          (build_change_report (prevLinks prior c.ticker) links).2⟩) := by
  cases hprev : lookupSnap prior c.ticker with
  | none =>
    cases nf with
    | false =>
      constructor
      · simp [processCompany, hprev]
      · left
        simp [processCompany, hprev]
    | true =>
      constructor
      · simp [processCompany, hprev]
      · right
        simp [processCompany, hprev]
  | some s =>
    by_cases hd : s.digest = digest_links links
    · constructor
      · simp [processCompany, hprev, hd]
      · left
        simp [processCompany, hprev, hd]
    · constructor
      · simp [processCompany, hprev, hd]
      · right
        simp [processCompany, hprev, hd]

/-- An aborted fetch inside the company list makes the whole loop raise. -/
theorem runLoop_error (prior : List (String × Snapshot)) (nf : Bool)
    (now : String) (fetch : Company → FetchOutcome) (c : Company)
    (h : fetch c = FetchOutcome.netFail) :
    ∀ pre suf, runLoop prior nf now fetch (pre ++ c :: suf) = Except.error () := by
  intro pre
  induction pre with
  | nil =>
    intro suf
    simp [runLoop, h]
  | cons a pre ih =>
    intro suf
    cases hf : fetch a with
    | netFail => simp [runLoop, hf]
    | ok links => simp [runLoop, hf, ih suf]

/-- C2: when some configured company page fetch fails, the run exits with
code 2, the state file keeps its prior content, and the companies after the
failing one are never consulted: the outcome does not depend on the
remainder of the list. -/
theorem netfail_aborts (env : String → Option String) (now : String)
    (fetch : Company → FetchOutcome) (args : Args)
    (priorFile : Option StateFile) (pre suf sufAlt : List Company)
    (c : Company) (h : fetch c = FetchOutcome.netFail) :
    mainRun env now fetch args priorFile (pre ++ c :: suf) = (2, priorFile) ∧
    mainRun env now fetch args priorFile (pre ++ c :: suf) =
      mainRun env now fetch args priorFile (pre ++ c :: sufAlt) := by
  cases priorFile with
  | none =>
    have h1 := runLoop_error [] args.notify_on_first_run now fetch c h pre suf
    have h2 := runLoop_error [] args.notify_on_first_run now fetch c h pre sufAlt
    constructor
    · simp [mainRun, h1]
    · simp [mainRun, h1, h2]
  | some st =>
    have h1 := runLoop_error st.companies args.notify_on_first_run now fetch c h pre suf
    have h2 := runLoop_error st.companies args.notify_on_first_run now fetch c h pre sufAlt
    constructor
    · simp [mainRun, h1]
    · simp [mainRun, h1, h2]

/-- Concrete instance of the network abort theorem: one failing company,
absent prior state. -/
theorem netfail_aborts_witness :
    mainRun (fun _ => none) "t" (fun _ => FetchOutcome.netFail) ⟨false, false⟩
      none [failCompany] = (2, none) ∧
    mainRun (fun _ => none) "t" (fun _ => FetchOutcome.netFail) ⟨false, false⟩
      none [failCompany] =
    mainRun (fun _ => none) "t" (fun _ => FetchOutcome.netFail) ⟨false, false⟩
      none [failCompany, failCompany] :=
  netfail_aborts (fun _ => none) "t" (fun _ => FetchOutcome.netFail)
    ⟨false, false⟩ none [] [] [failCompany] failCompany rfl

end NewsMonitor
